import Mathlib

/-!
Verification of the client-side data-synchronization layer of the notemind
note-taking client: the streaming chat decoder and transcript update of
`ChatSidebar.handleSend` (src/unnamed/part_013), the cursor-paginated notes
collection of `useNotes` (src/frontend/src/hooks/useNotes.ts and
src/unnamed/part_000), the search display rule of `Sidebar`
(src/unnamed/part_005) and the debounced search of `useSearch`
(src/frontend/src/hooks/useSearch.ts).

JavaScript string primitives (`split('\n')`, `startsWith`, `slice`, `trim`)
are embedded as structurally recursive functions over `List Char` so that
every definition evaluates inside the kernel.
-/

namespace Notemind

/-- Role of a chat message, from the `Message` interface of part_013. -/
inductive Role where
  | user
  | assistant
deriving DecidableEq, Repr

/-- A chat message, from the `Message` interface of part_013
(`role: 'user' | 'assistant'; content: string`; the optional `isTyping`
field is never written by `handleSend` and is omitted). -/
structure Message where
  role : Role
  content : String
deriving DecidableEq, Repr

/-- Embeds JavaScript `a.startsWith(b)`: is the first list a leading
segment of the second. -/
def isPre : List Char → List Char → Bool
  | [], _ => true
  | _ :: _, [] => false
  | a :: as, b :: bs => a = b && isPre as bs

/-- Embeds JavaScript `a.endsWith(b)`. -/
def isSuf (a b : List Char) : Bool :=
  isPre a.reverse b.reverse

/-- Whitespace recognised by the embedding of JavaScript `trim()`; the
payloads of this protocol only ever carry `' '` and line ends. -/
def isWs (c : Char) : Bool :=
  c = ' ' || c = '\n' || c = '\t' || c = '\r'

/-- Embeds JavaScript `s.trim()`: strips whitespace from both ends. -/
def trimChars (cs : List Char) : List Char :=
  ((cs.dropWhile isWs).reverse.dropWhile isWs).reverse

/-- Embeds JavaScript `s.split('\n')`: every `'\n'` separates two (possibly
empty) fields, so `"a\n"` splits into `["a", ""]`. -/
def splitNl : List Char → List (List Char)
  | [] => [[]]
  | c :: rest =>
    if c = '\n' then [] :: splitNl rest
    else
      match splitNl rest with
      | [] => [[c]]
      | h :: t => (c :: h) :: t

/-- `s.startsWith(p)` on `String`. -/
def strStarts (s p : String) : Bool :=
  isPre p.data s.data

/-- `s.slice(n)` on `String` (for ASCII heads, JavaScript code units and
characters coincide). -/
def strDrop (s : String) (n : Nat) : String :=
  ⟨s.data.drop n⟩

/-- `s.trim()` on `String`. -/
def strTrim (s : String) : String :=
  ⟨trimChars s.data⟩

/-- `chunk.split('\n')` on `String`, as in part_013 line 77. -/
def splitLines (s : String) : List String :=
  (splitNl s.data).map (fun l => ⟨l⟩)

/-- The `setMessages` updater of part_013 lines 88-98: copy the transcript,
and if the last message's role is `'assistant'`, replace (never append to)
its content with the frame's payload; a transcript whose last entry is not
an assistant message is returned unchanged.  (Inside `handleSend` the list
is never empty at this point: the assistant placeholder of line 59 was
already appended.) -/
def applyContent (msgs : List Message) (c : String) : List Message :=
  match msgs.getLast? with
  | some m => if m.role = Role.assistant then msgs.dropLast ++ [⟨Role.assistant, c⟩] else msgs
  | none => msgs

/-- One iteration of the per-line loop of part_013 lines 78-103.  `parse`
embeds the external `JSON.parse` combined with the `'content' in parsed`
check: `parse data = some c` when `data` parses as JSON with a string
`content` field `c`, and `none` when `JSON.parse` throws (the catch of
line 100 logs and falls through) or the object has no `content` key. -/
def processLine (parse : String → Option String) (msgs : List Message) (line : String) :
    List Message :=
  if strStarts line ("data: ") then
    let data := strTrim (strDrop line 6)
    if data = "[DONE]" then msgs
    else
      match parse data with
      | some c => applyContent msgs c
      | none => msgs
  else msgs

/-- Processing of one network chunk, part_013 lines 77-104: split on
`'\n'` and run the line loop over every field, with no carry-over of a
trailing partial line to the next chunk. -/
def processChunk (parse : String → Option String) (msgs : List Message) (chunk : String) :
    List Message :=
  (splitLines chunk).foldl (processLine parse) msgs

/-- The whole read loop of part_013 lines 72-105 applied to the chunks the
reader delivered, in arrival order. -/
def processStream (parse : String → Option String) (msgs : List Message)
    (chunks : List String) : List Message :=
  chunks.foldl (processChunk parse) msgs

/-- The content frame a single line contributes, if any: the payload of a
`data: ` line that is not the `[DONE]` sentinel and whose body parses. -/
def lineFrame (parse : String → Option String) (line : String) : Option String :=
  if strStarts line ("data: ") then
    let data := strTrim (strDrop line 6)
    if data = "[DONE]" then none else parse data
  else none

/-- The ordered content frames one chunk emits under part_013's loop. -/
def chunkFrames (parse : String → Option String) (chunk : String) : List String :=
  (splitLines chunk).filterMap (lineFrame parse)

/-- The ordered content frames a chunked stream emits under part_013's
loop: chunk by chunk, each chunk split in isolation. -/
def streamFrames (parse : String → Option String) (chunks : List String) : List String :=
  (chunks.map (chunkFrames parse)).flatten

/-- Model of the external `JSON.parse` composed with the `'content' in
parsed` test, restricted to the frame shape this protocol sends
(spec section 6: a frame body is the object with a single string field
`content`): accepts exactly strings of the form a brace, `"content":`, a
quoted escape-free string, a closing brace, and returns the field's value.
On every other input, in particular on a fragment of such an object cut by
a chunk boundary, it returns `none`, as `JSON.parse` would throw. -/
def jsonContent (s : String) : Option String :=
  let cs := s.data
  let pre := ("\x7b\"content\":\"").data
  let suf := ("\"\x7d").data
  if isPre pre cs && isSuf suf cs && pre.length + suf.length ≤ cs.length then
    let mid := (cs.drop pre.length).take (cs.length - pre.length - suf.length)
    if mid.any (fun c => c = '"' || c = '\\') then none else some ⟨mid⟩
  else none

/-- The fixed failure notice of part_013 line 115. -/
def errorNotice : String := "Sorry, there was an error processing your request."

/-- Outcome of the transport during one `handleSend` turn.
`success chunks`: the fetch resolved 2xx and the reader delivered `chunks`
then closed.  `httpError`: the fetch resolved with a non-2xx status
(line 62 throws after the placeholder of line 59 was appended).
`fetchReject`: the fetch itself rejected, before any placeholder.
`midStreamFailure chunks`: the fetch resolved 2xx, the reader delivered
`chunks`, then a read threw before the stream completed. -/
inductive TurnResult where
  | success (chunks : List String)
  | httpError
  | fetchReject
  | midStreamFailure (chunks : List String)

/-- The transcript effect of one `handleSend` call (part_013 lines 35-121)
on a previous transcript `prev` with user input `u`: append the user
message (line 39); once fetch resolves append the empty assistant
placeholder (line 59) — before the `response.ok` check of line 62; run the
read loop over whatever chunks arrive; and in the catch of lines 109-117
append a fresh assistant message carrying `errorNotice`. -/
def handleSend (parse : String → Option String) (prev : List Message) (u : String)
    (r : TurnResult) : List Message :=
  let afterUser := prev ++ [⟨Role.user, u⟩]
  let afterPlaceholder := afterUser ++ [⟨Role.assistant, ""⟩]
  match r with
  | TurnResult.success chunks => processStream parse afterPlaceholder chunks
  | TurnResult.httpError => afterPlaceholder ++ [⟨Role.assistant, errorNotice⟩]
  | TurnResult.fetchReject => afterUser ++ [⟨Role.assistant, errorNotice⟩]
  | TurnResult.midStreamFailure chunks =>
      processStream parse afterPlaceholder chunks ++ [⟨Role.assistant, errorNotice⟩]

/-- A note record, from the `Note` interface of
src/frontend/src/types/note.ts.  Only the stable identifier `note_id` and
the server-assigned creation timestamp matter for the collection claims;
the remaining fields (title, tags, categories, ...) ride along opaquely
and are collapsed into `content`. -/
structure Note where
  note_id : String
  content : String
  created_at : String
deriving DecidableEq, Repr

/-- The flattening of the fetched pages into the collection handed to the
presentation layer: `data?.pages.flat() ?? []` (useNotes.ts line 72), and
equivalently `data?.pages.flatMap 'page => page.notes' ?? []`
(part_000 line 49).  Plain concatenation in page order. -/
def flattenPages (pages : List (List Note)) : List Note :=
  pages.flatten

/-- The fixed page size of `useNotes` (useNotes.ts line 36). -/
def PAGE_SIZE : Nat := 20

/-- `getNextPageParam` of useNotes.ts lines 56-59: no next offset once the
last page came back short of `PAGE_SIZE`, otherwise the next offset is the
number of pages fetched so far times `PAGE_SIZE`. -/
def getNextPageParam (lastPage : List Note) (allPages : List (List Note)) : Option Nat :=
  if lastPage.length < PAGE_SIZE then none
  else some (allPages.length * PAGE_SIZE)

/-- The pages accumulated by the infinite query for one query scope. -/
structure InfiniteData where
  pages : List (List Note)
deriving DecidableEq, Repr

/-- Modelled from the spec: the `hasNextPage` flag the external
react-query `useInfiniteQuery` machinery derives from `getNextPageParam`
(the cursor is exhausted exactly when `getNextPageParam` returns
undefined for the last fetched page). -/
def hasNextPage (d : InfiniteData) : Bool :=
  match d.pages.getLast? with
  | none => true
  | some lp => (getNextPageParam lp d.pages).isSome

/-- Modelled from the spec: the external react-query `fetchNextPage`
operation, with the server abstracted as a map from offsets to pages.  The
first call fetches at `initialPageParam = 0` (useNotes.ts line 60); later
calls ask `getNextPageParam` for the next offset, fetch there and append
the returned page, and are a no-op when `getNextPageParam` returns
undefined. -/
def fetchNextPage (server : Nat → List Note) (d : InfiniteData) : InfiniteData :=
  match d.pages.getLast? with
  | none => ⟨[server 0]⟩
  | some lp =>
    match getNextPageParam lp d.pages with
    | none => d
    | some off => ⟨d.pages ++ [server off]⟩

/-- The display decision of Sidebar, part_005 line 72:
`isSearchVisible && query.length > 0 ? results ?? [] : notes`.  `query` is
the RAW search input returned by `useSearch`, not the debounced value;
`results` is the data of the search query (undefined while absent). -/
def displayNotes (isSearchVisible : Bool) (query : String) (results : Option (List Note))
    (notes : List Note) : List Note :=
  if isSearchVisible && query.length > 0 then results.getD [] else notes

/-- The display decision as the spec's section 4.3 words it, for
comparison with `displayNotes`: search results are shown exactly when the
overlay is visible and the SETTLED (debounced) query is non-empty. -/
def specDisplayNotes (visible : Bool) (settled : String) (results : Option (List Note))
    (notes : List Note) : List Note :=
  if visible && settled.length > 0 then results.getD [] else notes

/-- Modelled from the spec: the `useDebounce` hook (its implementation is
not among the source files; useSearch.ts line 8 only calls
`useDebounce(query, 300)`).  Spec section 4.2: a settled value is emitted
only after `delay` time units elapse with no further update; each new
update restarts the interval (classic debounce); and an update whose
value is EMPTY is emitted immediately (interval = 0), so clearing the
search is instantaneous.  Edits are given as (absolute arrival time,
value) pairs in arrival order: an empty value settles at once; a
non-empty value settles unless the next edit arrives strictly before its
timer fires; the final value always settles once the stream goes quiet. -/
def debounceEmits (delay : Nat) : List (Nat × String) → List String
  | [] => []
  | [(_, v)] => [v]
  | (t1, v1) :: (t2, v2) :: rest =>
    if v1.length = 0 then v1 :: debounceEmits delay ((t2, v2) :: rest)
    else if t2 < t1 + delay then debounceEmits delay ((t2, v2) :: rest)
    else v1 :: debounceEmits delay ((t2, v2) :: rest)

/-- All consecutive edits arrive strictly sooner than `delay` after the
previous one. -/
def allRapid (delay : Nat) : List (Nat × String) → Bool
  | [] => true
  | [_] => true
  | a :: b :: rest => (b.1 < a.1 + delay) && allRapid delay (b :: rest)

/-- The search requests issued for a sequence of settled values: useSearch
(useSearch.ts lines 10-14) keys one query on each settled value and
enables it only when the value is non-empty. -/
def issuedQueries (settled : List String) : List String :=
  settled.filter (fun q => q.length != 0)

/-- The stream of the spec's section 8 chat scenario: cumulative contents
`Hel` then `Hello`, then the `[DONE]` sentinel, one frame per line. -/
def scenarioChunks : List String :=
  ["data: \x7b\"content\":\"Hel\"\x7d\n", "data: \x7b\"content\":\"Hello\"\x7d\n",
   "data: [DONE]\n"]

/-- A note used in concrete instantiations. -/
def noteA : Note := ⟨"a1", "alpha", "2024-01-01"⟩

/-- A second note with a distinct identifier. -/
def noteB : Note := ⟨"b2", "beta", "2024-01-02"⟩

/-- A page of `n` dummy notes with pairwise distinct identifiers built
from the character `tag`. -/
def pageOf (n : Nat) (tag : Char) : List Note :=
  (List.range n).map (fun i => ⟨⟨List.replicate (i + 1) tag⟩, "", ""⟩)

/-- The server of the spec's section 8 pagination scenario: 20 items at
offset 0, 7 items at offset 20. -/
def serverC4 : Nat → List Note :=
  fun off => if off = 0 then pageOf 20 'a' else if off = 20 then pageOf 7 'b' else []

theorem applyContent_getLast (msgs : List Message) (t c : String)
    (h : msgs.getLast? = some ⟨Role.assistant, t⟩) :
    (applyContent msgs c).getLast? = some ⟨Role.assistant, c⟩ := by
  unfold applyContent
  rw [h]
  simp

theorem applyContent_user (msgs : List Message) (t c : String)
    (h : msgs.getLast? = some ⟨Role.user, t⟩) :
    applyContent msgs c = msgs := by
  unfold applyContent
  rw [h]
  simp

theorem applyContent_length (msgs : List Message) (c : String) :
    (applyContent msgs c).length = msgs.length := by
  cases hl : msgs.getLast? with
  | none => simp [applyContent, hl]
  | some m =>
    by_cases hr : m.role = Role.assistant
    · have hne : msgs ≠ [] := by
        intro he
        rw [he] at hl
        simp at hl
      have hpos : 0 < msgs.length := List.length_pos.mpr hne
      have hstep : (msgs.dropLast ++ [(⟨Role.assistant, c⟩ : Message)]).length
          = msgs.length := by
        simp [List.length_dropLast]
        omega
      simpa [applyContent, hl, hr] using hstep
    · simp [applyContent, hl, hr]

theorem processLine_eq (parse : String → Option String) (msgs : List Message)
    (line : String) :
    processLine parse msgs line =
      match lineFrame parse line with
      | some c => applyContent msgs c
      | none => msgs := by
  unfold processLine lineFrame
  by_cases h1 : strStarts line ("data: ") = true
  · simp only [h1, if_true]
    by_cases h2 : strTrim (strDrop line 6) = "[DONE]"
    · simp [h2]
    · simp only [if_neg h2]
  · simp [h1]

theorem foldl_lines_frames (parse : String → Option String) (ls : List String)
    (msgs : List Message) :
    ls.foldl (processLine parse) msgs
      = (ls.filterMap (lineFrame parse)).foldl applyContent msgs := by
  induction ls generalizing msgs with
  | nil => rfl
  | cons l ls ih =>
    rw [List.foldl_cons, ih, processLine_eq]
    cases h : lineFrame parse l <;> simp [List.filterMap_cons, h]

theorem processChunk_frames (parse : String → Option String) (msgs : List Message)
    (chunk : String) :
    processChunk parse msgs chunk = (chunkFrames parse chunk).foldl applyContent msgs := by
  unfold processChunk chunkFrames
  exact foldl_lines_frames parse (splitLines chunk) msgs

theorem processStream_frames (parse : String → Option String) (msgs : List Message)
    (chunks : List String) :
    processStream parse msgs chunks
      = (streamFrames parse chunks).foldl applyContent msgs := by
  induction chunks generalizing msgs with
  | nil => rfl
  | cons c cs ih =>
    show processStream parse (processChunk parse msgs c) cs = _
    rw [ih, processChunk_frames]
    unfold streamFrames
    rw [List.map_cons, List.flatten_cons, List.foldl_append]

theorem foldl_applyContent_length (fs : List String) (msgs : List Message) :
    (fs.foldl applyContent msgs).length = msgs.length := by
  induction fs generalizing msgs with
  | nil => rfl
  | cons f fs ih => rw [List.foldl_cons, ih, applyContent_length]

theorem processStream_length (parse : String → Option String) (msgs : List Message)
    (chunks : List String) :
    (processStream parse msgs chunks).length = msgs.length := by
  rw [processStream_frames, foldl_applyContent_length]

/-- C1: the decoding loop of part_013 keeps no carry-over buffer — each
chunk is split on `'\n'` in isolation — so a `data: ` line split across a
chunk boundary is parsed as two junk fragments and its frame is lost: the
very same byte stream emits the frame `Hi` when it arrives as one chunk
and no frame at all when it is split mid-line, contradicting the claimed
split-invariance. -/
theorem streamDecoder_split_loses_frame :
    ("data: \x7b\"cont" ++ "ent\":\"Hi\"\x7d\n" = "data: \x7b\"content\":\"Hi\"\x7d\n")
    ∧ streamFrames jsonContent ["data: \x7b\"content\":\"Hi\"\x7d\n"] = ["Hi"]
    ∧ streamFrames jsonContent ["data: \x7b\"cont", "ent\":\"Hi\"\x7d\n"] = [] := by
  decide

/-- C2: every content frame REPLACES the in-progress assistant message's
text with its full cumulative payload, so after the spec's scenario stream
(`Hel`, `Hello`, `[DONE]`) any transcript whose last entry is the
in-progress assistant message ends with that message's text equal to
`Hello` — never the concatenation `HelHello`. -/
theorem cumulative_frames_replace (init : List Message) (t : String)
    (h : init.getLast? = some ⟨Role.assistant, t⟩) :
    (processStream jsonContent init scenarioChunks).getLast?
      = some ⟨Role.assistant, "Hello"⟩ := by
  rw [processStream_frames]
  have hs : streamFrames jsonContent scenarioChunks = ["Hel", "Hello"] := by decide
  rw [hs]
  simp only [List.foldl_cons, List.foldl_nil]
  exact applyContent_getLast _ _ _ (applyContent_getLast _ t _ h)

/-- Concrete instance of `cumulative_frames_replace`: transcript
`[user hi, assistant ""]` ends the scenario stream at `Hello`. -/
theorem cumulative_frames_replace_witness :
    (processStream jsonContent [⟨Role.user, "hi"⟩, ⟨Role.assistant, ""⟩] scenarioChunks).getLast?
      = some ⟨Role.assistant, "Hello"⟩ :=
  cumulative_frames_replace [⟨Role.user, "hi"⟩, ⟨Role.assistant, ""⟩] "" (by decide)

/-- C8: a `data: ` line whose payload fails to parse (the catch of
part_013 line 100 logs and falls through) contributes nothing: processing
the chunk equals processing its line list with the malformed line removed,
so the remaining lines — and, the loop being a fold, all later chunks —
are processed exactly as before and the stream is never aborted. -/
theorem malformed_line_skipped (parse : String → Option String) (chunk l : String)
    (ls1 ls2 : List String) (msgs : List Message)
    (hsplit : splitLines chunk = ls1 ++ l :: ls2)
    (h1 : strStarts l ("data: ") = true)
    (h2 : strTrim (strDrop l 6) ≠ "[DONE]")
    (h3 : parse (strTrim (strDrop l 6)) = none) :
    processChunk parse msgs chunk = (ls1 ++ ls2).foldl (processLine parse) msgs := by
  have hid : ∀ m : List Message, processLine parse m l = m := by
    intro m
    unfold processLine
    rw [if_pos h1, if_neg h2, h3]
  unfold processChunk
  rw [hsplit, List.foldl_append, List.foldl_cons, hid, ← List.foldl_append]

/-- Concrete instance of `malformed_line_skipped`: a chunk carrying a
corrupt line followed by a good frame still delivers the good frame. -/
theorem malformed_line_skipped_witness :
    processChunk jsonContent [⟨Role.assistant, ""⟩]
        ("data: \x7boops\ndata: \x7b\"content\":\"ok\"\x7d")
      = [⟨Role.assistant, "ok"⟩] := by
  rw [malformed_line_skipped jsonContent ("data: \x7boops\ndata: \x7b\"content\":\"ok\"\x7d")
      ("data: \x7boops") [] (["data: \x7b\"content\":\"ok\"\x7d"]) [⟨Role.assistant, ""⟩]
      (by decide) (by decide) (by decide) (by decide)]
  decide

/-- C10: a content frame mutates the transcript only when its last entry
is an assistant message; when the last entry is a user message the frame
is silently discarded and the transcript — in particular the user
message's text — is unchanged. -/
theorem frame_never_overwrites_user (parse : String → Option String) (line : String)
    (msgs : List Message) (t : String)
    (h : msgs.getLast? = some ⟨Role.user, t⟩) :
    processLine parse msgs line = msgs := by
  rw [processLine_eq]
  cases hf : lineFrame parse line with
  | none => rfl
  | some c => exact applyContent_user msgs t c h

/-- Concrete instance of `frame_never_overwrites_user`: a content frame
arriving while the last entry is a user message leaves it intact. -/
theorem frame_never_overwrites_user_witness :
    processLine jsonContent [⟨Role.user, "hi"⟩] ("data: \x7b\"content\":\"x\"\x7d")
      = [⟨Role.user, "hi"⟩] :=
  frame_never_overwrites_user jsonContent ("data: \x7b\"content\":\"x\"\x7d")
    [⟨Role.user, "hi"⟩] "hi" (by decide)

/-- C9: the empty assistant placeholder is appended as soon as fetch
resolves, before the `response.ok` check, so a non-2xx response leaves the
turn with both an empty assistant message and the appended error notice. -/
theorem http_error_appends_empty_and_notice (parse : String → Option String)
    (prev : List Message) (u : String) :
    handleSend parse prev u TurnResult.httpError
      = prev ++ [⟨Role.user, u⟩, ⟨Role.assistant, ""⟩, ⟨Role.assistant, errorNotice⟩] := by
  simp [handleSend]

/-- C5 counterexample: on a mid-stream transport failure the code APPENDS
a fresh assistant message carrying the notice; the in-progress assistant
message keeps its last streamed text `par` instead of being replaced, so
the turn ends with TWO assistant messages, not one. -/
theorem transport_failure_two_assistants :
    handleSend jsonContent [] "hi"
        (TurnResult.midStreamFailure ["data: \x7b\"content\":\"par\"\x7d\n"])
      = [⟨Role.user, "hi"⟩, ⟨Role.assistant, "par"⟩, ⟨Role.assistant, errorNotice⟩]
    ∧ ((handleSend jsonContent [] "hi"
        (TurnResult.midStreamFailure ["data: \x7b\"content\":\"par\"\x7d\n"])).filter
        (fun m => m.role == Role.assistant)).length = 2 := by
  decide

/-- C5 amended: on a mid-stream transport failure the notice is appended
as a new assistant message: the transcript ends with the notice message
and has gained exactly three messages this turn (the user message, the
in-progress assistant message, and the notice). -/
theorem transport_failure_appends_notice (parse : String → Option String)
    (prev : List Message) (u : String) (chunks : List String) :
    (handleSend parse prev u (TurnResult.midStreamFailure chunks)).getLast?
        = some ⟨Role.assistant, errorNotice⟩
    ∧ (handleSend parse prev u (TurnResult.midStreamFailure chunks)).length
        = prev.length + 3 := by
  constructor
  · simp [handleSend]
  · simp [handleSend, processStream_length]

/-- C3 counterexample: `pages.flat()` performs no deduplication: when the
server returns the same identifier on two pages, the flattened collection
lists it twice. -/
theorem pages_flat_keeps_duplicates :
    ((flattenPages [[noteA], [noteA]]).map Note.note_id) = ["a1", "a1"]
    ∧ ¬ ((flattenPages [[noteA], [noteA]]).map Note.note_id).Nodup := by
  decide

/-- C3 amended: the flattened collection is the plain concatenation of the
fetched pages, preserving within-page order and listing page `N`'s items
before page `N+1`'s; it contains no duplicate identifier PROVIDED the
pages returned by the server carry globally distinct identifiers — the
code itself never deduplicates. -/
theorem flatten_pages_nodup_of_server_nodup (pages : List (List Note))
    (h : (pages.flatten.map Note.note_id).Nodup) :
    flattenPages pages = pages.flatten
    ∧ ((flattenPages pages).map Note.note_id).Nodup
    ∧ ∀ p1 p2 : List (List Note), pages = p1 ++ p2 →
        flattenPages pages = flattenPages p1 ++ flattenPages p2 := by
  refine ⟨rfl, h, ?_⟩
  intro p1 p2 hsplit
  rw [hsplit]
  unfold flattenPages
  exact List.flatten_append p1 p2

/-- Concrete instance of `flatten_pages_nodup_of_server_nodup`: two pages
with distinct identifiers flatten to a duplicate-free collection. -/
theorem flatten_pages_nodup_witness :
    ((flattenPages [[noteA], [noteB]]).map Note.note_id).Nodup :=
  (flatten_pages_nodup_of_server_nodup [[noteA], [noteB]] (by decide)).2.1

/-- C4: with page size 20, a first fetch returning 20 items leaves the
cursor unexhausted; a second fetch returning 7 items exhausts it; a third
`fetchNextPage` call is a no-op and the flattened collection keeps its 27
items. -/
theorem page_size_scenario :
    hasNextPage (fetchNextPage serverC4 ⟨[]⟩) = true
    ∧ hasNextPage (fetchNextPage serverC4 (fetchNextPage serverC4 ⟨[]⟩)) = false
    ∧ fetchNextPage serverC4 (fetchNextPage serverC4 (fetchNextPage serverC4 ⟨[]⟩))
        = fetchNextPage serverC4 (fetchNextPage serverC4 ⟨[]⟩)
    ∧ (flattenPages (fetchNextPage serverC4 (fetchNextPage serverC4 ⟨[]⟩)).pages).length
        = 27 := by
  decide

/-- C6 counterexample: the Sidebar decides on the RAW query, not the
settled one.  In the reachable state where the overlay is open, the user
typed `a` less than 300ms ago (raw query `a`), the settled query is still
empty and hence no search result exists, the spec's rule shows the
paginated notes while the code shows the empty `results ?? []` fallback. -/
theorem display_uses_raw_query :
    displayNotes true ("a") none [noteA] = []
    ∧ specDisplayNotes true ("") none [noteA] = [noteA]
    ∧ displayNotes true ("a") none [noteA] ≠ specDisplayNotes true ("") none [noteA] := by
  decide

/-- C6 amended: the list rendered is the search result collection exactly
when the overlay is visible and the RAW (not the settled) query is
non-empty; in every other state it is the paginated collection. -/
theorem display_rule_uses_raw (visible : Bool) (raw : String)
    (results : Option (List Note)) (notes : List Note) :
    (visible = true ∧ 0 < raw.length
        ∧ displayNotes visible raw results notes = results.getD [])
    ∨ ((visible = false ∨ raw.length = 0)
        ∧ displayNotes visible raw results notes = notes) := by
  cases visible with
  | false => exact Or.inr ⟨Or.inl rfl, by simp [displayNotes]⟩
  | true =>
    cases Nat.eq_zero_or_pos raw.length with
    | inl h => exact Or.inr ⟨Or.inr h, by simp [displayNotes, h]⟩
    | inr h => exact Or.inl ⟨rfl, h, by simp [displayNotes, h]⟩

theorem debounceEmits_cons_cons (delay t1 t2 : Nat) (v1 v2 : String)
    (rest : List (Nat × String)) :
    debounceEmits delay ((t1, v1) :: (t2, v2) :: rest)
      = if v1.length = 0 then v1 :: debounceEmits delay ((t2, v2) :: rest)
        else if t2 < t1 + delay then debounceEmits delay ((t2, v2) :: rest)
        else v1 :: debounceEmits delay ((t2, v2) :: rest) := rfl

theorem debounce_last (delay : Nat) (edits : List (Nat × String))
    (tl : Nat) (v : String)
    (hlast : edits.getLast? = some (tl, v)) :
    (debounceEmits delay edits).getLast? = some v := by
  induction edits with
  | nil => cases hlast
  | cons a rest ih =>
    cases rest with
    | nil =>
      obtain ⟨t1, v1⟩ := a
      simp only [List.getLast?_singleton, Option.some.injEq, Prod.mk.injEq] at hlast
      simp [debounceEmits, hlast.2]
    | cons b rest' =>
      obtain ⟨t1, v1⟩ := a
      obtain ⟨t2, v2⟩ := b
      rw [List.getLast?_cons_cons] at hlast
      have ihv := ih hlast
      cases hl : debounceEmits delay ((t2, v2) :: rest') with
      | nil =>
        rw [hl] at ihv
        cases ihv
      | cons c l' =>
        rw [hl] at ihv
        rw [debounceEmits_cons_cons]
        by_cases h0 : v1.length = 0
        · rw [if_pos h0, hl, List.getLast?_cons_cons]
          exact ihv
        · rw [if_neg h0]
          by_cases ht : t2 < t1 + delay
          · rw [if_pos ht, hl]
            exact ihv
          · rw [if_neg ht, hl, List.getLast?_cons_cons]
            exact ihv

theorem debounce_rapid_mem (delay : Nat) (edits : List (Nat × String))
    (tl : Nat) (v : String)
    (hlast : edits.getLast? = some (tl, v))
    (hrapid : allRapid delay edits = true) :
    ∀ q ∈ debounceEmits delay edits, q = v ∨ q.length = 0 := by
  induction edits with
  | nil => cases hlast
  | cons a rest ih =>
    cases rest with
    | nil =>
      obtain ⟨t1, v1⟩ := a
      simp only [List.getLast?_singleton, Option.some.injEq, Prod.mk.injEq] at hlast
      intro q hq
      simp only [debounceEmits, List.mem_singleton] at hq
      exact Or.inl (hq.trans hlast.2)
    | cons b rest' =>
      obtain ⟨t1, v1⟩ := a
      obtain ⟨t2, v2⟩ := b
      rw [List.getLast?_cons_cons] at hlast
      simp only [allRapid, Bool.and_eq_true, decide_eq_true_eq] at hrapid
      have hr2 : allRapid delay ((t2, v2) :: rest') = true := by
        simpa [allRapid] using hrapid.2
      have ihm := ih hlast hr2
      intro q hq
      rw [debounceEmits_cons_cons] at hq
      by_cases h0 : v1.length = 0
      · rw [if_pos h0] at hq
        rcases List.mem_cons.mp hq with h | h
        · exact Or.inr (h ▸ h0)
        · exact ihm q h
      · rw [if_neg h0, if_pos hrapid.1] at hq
        exact ihm q hq

/-- C7 counterexample: under the spec-faithful debouncer an EMPTY edit
settles immediately (spec section 4.2's interval-0 rule), so for the
rapid sequence `a`, `` (a clear), `app` — every gap shorter than the
300-unit window — the settled sequence is `["", "app"]`, not `["app"]`:
an intermediate value does become the settled query. -/
theorem rapid_edit_through_empty_settles :
    allRapid 300 [(0, "a"), (50, ""), (100, "app")] = true
    ∧ debounceEmits 300 [(0, "a"), (50, ""), (100, "app")] = ["", "app"]
    ∧ debounceEmits 300 [(0, "a"), (50, ""), (100, "app")] ≠ ["app"] := by
  decide

/-- C7 amended: when every edit arrives strictly sooner than the debounce
interval after the previous one, the final edited value settles (and
settles last); every other settled value is an intermediate EMPTY value
(a clear, emitted immediately per spec section 4.2) — no intermediate
non-empty value ever settles; and since useSearch only issues a request
for a non-empty settled value, only the final edited value is ever issued
as a search request. -/
theorem rapid_edits_settle_final_or_clear (delay : Nat) (edits : List (Nat × String))
    (tl : Nat) (v : String)
    (hlast : edits.getLast? = some (tl, v))
    (hrapid : allRapid delay edits = true) :
    (debounceEmits delay edits).getLast? = some v
    ∧ (∀ q ∈ debounceEmits delay edits, q = v ∨ q.length = 0)
    ∧ ∀ q ∈ issuedQueries (debounceEmits delay edits), q = v := by
  refine ⟨debounce_last delay edits tl v hlast,
    debounce_rapid_mem delay edits tl v hlast hrapid, ?_⟩
  intro q hq
  unfold issuedQueries at hq
  have h := List.mem_filter.mp hq
  rcases debounce_rapid_mem delay edits tl v hlast hrapid q h.1 with h' | h'
  · exact h'
  · exfalso
    have hne := h.2
    simp [h'] at hne

/-- Concrete instance of `rapid_edits_settle_final_or_clear`: the spec's
section 8 scenario — `a`, `ap`, `app` typed at 50ms intervals under a
300ms window — settles last on `app` and queries only `app`. -/
theorem rapid_edits_settle_witness :
    (debounceEmits 300 [(0, "a"), (50, "ap"), (100, "app")]).getLast? = some ("app")
    ∧ ∀ q ∈ issuedQueries (debounceEmits 300 [(0, "a"), (50, "ap"), (100, "app")]),
        q = "app" := by
  have h := rapid_edits_settle_final_or_clear 300 [(0, "a"), (50, "ap"), (100, "app")]
    100 ("app") (by decide) (by decide)
  exact ⟨h.1, h.2.2⟩

end Notemind
